import Mathlib

/-!
Verification of the time-series template reconciliation engine.

This file gives a shallow embedding of the reconciliation, audit, and
orchestration routines of the repository (`src/app.py` and
`src/services/data_update_strategy.py`) and proves or refutes the stated
properties about them.

Modelling conventions:
* Dates are integer day numbers (`Int`); pandas timestamps are exact days here,
  so successive differences are exact integers.
* A fetched observation is a pair of a date and an optional numeric value;
  `none` models a null (the value dropped by
  `pd.to_numeric(errors='coerce')` followed by `dropna`).
* A worksheet row set is a list; absolute spreadsheet row numbers are carried
  explicitly where the code writes at fixed offsets.
* Python exceptions are modelled with `Except String`.
* External collaborators (Google Drive transport, the FRED client) are inputs:
  the embedded functions take the already-fetched data as arguments.
-/

/-- An observation for one series: a date and an optional numeric value
(`none` is a null dropped by the `dropna` in the fetch loop). -/
abbrev Obs := Int × Option Int

/-- Per-series fetched data, mirroring the `all_series_data` dictionary built
by the fetch loops in `backfill_yields_final` and `backfill_yields_correct`:
series id paired with its observation list. A series absent from the list
models a series whose fetch raised and was skipped. -/
abbrev SeriesData := List (String × List Obs)

/-- The `dropna(subset=['date', 'value'])` step: keep only observations whose
value is non-null, yielding (date, value) pairs. -/
def nonNullObs (obs : List Obs) : List (Int × Int) :=
  obs.filterMap (fun p => p.2.map (fun v => (p.1, v)))

/-- Dates at which a series carries a non-null value (the
`set(all_series_data[s]['date'].tolist())` of the source, as a list). -/
def seriesDates (fetched : SeriesData) (s : String) : List Int :=
  (nonNullObs ((fetched.lookup s).getD [])).map Prod.fst

/-- One step of the main-series intersection loop of `backfill_yields_final`
(src/app.py lines 1325-1332): a series missing from the fetched data is
skipped; the first present series initialises the accumulator; later present
series intersect into it. -/
def main_dates_step (fetched : SeriesData) (acc : Option (List Int)) (s : String) :
    Option (List Int) :=
  match fetched.lookup s with
  | none => acc
  | some obs =>
    let ds := (nonNullObs obs).map Prod.fst
    match acc with
    | none => some ds
    | some cur => some (cur.filter (fun d => ds.contains d))

/-- The `main_dates` accumulation of `backfill_yields_final`: fold the
intersection step over the declared main series, starting from `None`. -/
def main_dates (fetched : SeriesData) (main : List String) : Option (List Int) :=
  main.foldl (main_dates_step fetched) none

/-- The value written into the cell for series `s` at date `d`: the first
matching non-null observation (`matches.iloc[0]['value']` after the
`series_df['date'] == date` filter), or nothing when the series is missing or
has no observation at `d` (the cell is then left untouched). -/
def cell_lookup (fetched : SeriesData) (s : String) (d : Int) : Option Int :=
  match fetched.lookup s with
  | none => none
  | some obs => ((nonNullObs obs).find? (fun p => p.1 == d)).map Prod.snd

/-- One written output row: the date placed in column 1 and the populated
value cells as (column, value) pairs, in series-mapping order. -/
structure OutRow where
  date : Int
  cells : List (Nat × Int)
deriving DecidableEq

/-- The inner per-date writing loop shared by `backfill_yields_final` and
`backfill_yields_correct`: write the date into column 1 and, for each mapped
series that has a matching observation, write its value into its column. -/
def buildRow (fetched : SeriesData) (seriesToCols : List (String × Nat)) (d : Int) :
    OutRow :=
  { date := d
    cells := seriesToCols.filterMap (fun sc =>
      (cell_lookup fetched sc.1 d).map (fun v => (sc.2, v))) }

/-- Python's `sorted(dates, reverse=True)`: descending date sort. -/
def sortDescInt (l : List Int) : List Int :=
  List.insertionSort (fun a b => b ≤ a) l

/-- The `for i, date in enumerate(sorted_dates): row_num = 4 + i` loop:
write one row per date at consecutive absolute row numbers. -/
def write_rows (fetched : SeriesData) (seriesToCols : List (String × Nat)) :
    Nat → List Int → List (Nat × OutRow)
  | _, [] => []
  | rowNum, d :: ds =>
    (rowNum, buildRow fetched seriesToCols d) :: write_rows fetched seriesToCols (rowNum + 1) ds

/-- The reconciliation core of `backfill_yields_final` (src/app.py lines
1324-1360): intersect the main-series dates, fail when the intersection is
missing or empty (`if not main_dates`), otherwise write one row per eligible
date, descending, starting at row 4. -/
def backfill_yields_final_rows (fetched : SeriesData) (main : List String)
    (seriesToCols : List (String × Nat)) : Except String (List (Nat × OutRow)) :=
  match main_dates fetched main with
  | none => .error "No complete data for main series"
  | some ds =>
    if ds.dedup.isEmpty then .error "No complete data for main series"
    else .ok (write_rows fetched seriesToCols 4 (sortDescInt ds.dedup))

/-- The `all_dates` union of `backfill_yields_correct` (src/app.py lines
1181-1184): every date carrying a non-null value in any fetched series. -/
def union_dates (fetched : SeriesData) : List Int :=
  (fetched.foldl (fun acc p => acc ++ (nonNullObs p.2).map Prod.fst) []).dedup

/-- The write phase of `backfill_yields_correct` (src/app.py lines
1186-1232): the sole check is the `Data` sheet's existence; the loop then
overwrites one row per fetched date starting at row 4 and reports success
with the row count. The worksheet's prior content is never consulted — there
is no range-ambiguity check and no failure path besides the missing sheet.
(What the loop does to the prior sheet is `overwrite_sheet_after` below.) -/
def backfill_yields_correct_result (hasDataSheet : Bool)
    (fetched : SeriesData) (seriesToCols : List (String × Nat)) :
    Except String (List (Nat × OutRow) × Nat) :=
  if hasDataSheet then
    let sorted := sortDescInt (union_dates fetched)
    .ok (write_rows fetched seriesToCols 4 sorted, sorted.length)
  else .error "Data sheet not found"

/-- The individual `ws.cell(row=…, column=…, value=…)` writes issued by the
overwrite loop of `backfill_yields_correct` on the sorted dates: for the row
at 4+i, the date into column 1 and each matched series value into its mapped
column — each write is an address (row, column) with the value placed there. -/
def overwrite_cell_writes (fetched : SeriesData) (seriesToCols : List (String × Nat))
    (sortedDates : List Int) : List (Nat × Nat × Int) :=
  (write_rows fetched seriesToCols 4 sortedDates).flatMap
    (fun r => (r.1, 1, r.2.date) :: r.2.cells.map (fun c => (r.1, c.1, c.2)))

/-- The `Data` sheet saved by `wb.save` after the overwrite loop, with the
prior sheet given as its cell list: the issued writes take effect at their
addresses (the loop targets each address at most once under the source's
distinct column map), and a prior cell survives exactly when no write
targeted its address — `ws.cell` never clears, shifts or deletes any other
cell, so rows beyond the overwritten range keep their stale content. -/
def overwrite_sheet_after (writes prior : List (Nat × Nat × Int)) :
    List (Nat × Nat × Int) :=
  writes ++
    prior.filter (fun c => !(writes.any (fun w => w.1 == c.1 && w.2.1 == c.2.1)))

/-- A stored data row: (date, value payload). The payload stands for the
non-date cells of the row, which the merge never inspects. -/
abbrev DataRow := Int × Int

/-- Pandas `drop_duplicates(subset=['Date'], keep='last')`: a row survives iff
no later row carries the same date; relative order of survivors is kept. -/
def dedupKeepLast : List DataRow → List DataRow
  | [] => []
  | r :: rs =>
    if rs.any (fun q => q.1 == r.1) then dedupKeepLast rs
    else r :: dedupKeepLast rs

/-- Pandas `sort_values('Date')`: ascending sort on the date key. -/
def sort_values_by_date (rows : List DataRow) : List DataRow :=
  List.insertionSort (fun a b => a.1 ≤ b.1) rows

/-- The APPEND merge shared by `backfill_template` (lines 62-69) and
`update_template_incremental` (lines 121-128) of
src/services/data_update_strategy.py: concatenate the fetched rows after the
existing rows, deduplicate by date keeping the last write, then sort by date. -/
def merge_rows (df newData : List DataRow) : List DataRow :=
  sort_values_by_date (dedupKeepLast (df ++ newData))

/-- Pandas `Series.diff().dropna()` on the date column: successive differences
in the row order of the frame (the source never sorts before differencing). -/
def date_diffs (dates : List Int) : List Int :=
  (dates.zip dates.tail).map (fun p => p.2 - p.1)

/-- Twice the pandas `Series.median()` of an integer list: sort, then twice
the middle element, or the sum of the two middle elements for an even count;
`none` on empty. With integer inputs the pandas median is an exact
half-integer, so carrying twice its value in `Int` loses nothing and keeps
every comparison exact and decidable. -/
def medianTwice (xs : List Int) : Option Int :=
  let s := List.insertionSort (fun a b => a ≤ b) xs
  let n := s.length
  if n = 0 then none
  else if n % 2 = 1 then some (2 * s.getD (n / 2) 0)
  else some (s.getD (n / 2 - 1) 0 + s.getD (n / 2) 0)

/-- The frequency-estimation step of `audit_templates` (src/app.py lines
398-417) and `audit_templates_v2` (lines 572-590): median of the successive
row-order date differences of the valid dates, then the 1.5 / 35 / 100 day
thresholds; `unknown` when there are no differences. The doubled thresholds
3 / 70 / 200 against twice the median are exactly the source's
`median ≤ 1.5`, `median ≤ 35`, `median ≤ 100`. -/
def audit_frequency (validDates : List Int) : String :=
  match medianTwice (date_diffs validDates) with
  | none => "unknown"
  | some t =>
    if t ≤ 3 then "daily"
    else if t ≤ 70 then "monthly"
    else if t ≤ 200 then "quarterly"
    else "annual"

/-- Modelled from the spec (section 4.1 step 5), for comparison with
`audit_frequency`: the cadence computed from the median of successive deltas
of the ASCENDING-SORTED valid dates, with the same thresholds. -/
def spec_frequency (validDates : List Int) : String :=
  match medianTwice (date_diffs (List.insertionSort (fun a b => a ≤ b) validDates)) with
  | none => "unknown"
  | some t =>
    if t ≤ 3 then "daily"
    else if t ≤ 70 then "monthly"
    else if t ≤ 200 then "quarterly"
    else "annual"

/-- Pandas `Series.max()` over a date column: greatest element, none on empty. -/
def maxDate : List Int → Option Int
  | [] => none
  | d :: ds => some (ds.foldl max d)

/-- The last-date determination of `backfill_template`
(src/services/data_update_strategy.py lines 34-41): when the `Date` column
exists and the frame has rows, its maximum date; otherwise the configured
fallback floor date. -/
def backfill_last_date (hasDateCol : Bool) (dates : List Int) (floorDate : Int) : Int :=
  match (if hasDateCol then maxDate dates else none) with
  | some m => m
  | none => floorDate

/-- The fetch-range decision of `backfill_template` (lines 34-56): short-
circuit with no fetch when the last date is within 7 days of now
(`last_date >= current_date - timedelta(days=7)`); otherwise fetch from the
last date plus one DAY through now. -/
def backfill_fetch_range (hasDateCol : Bool) (dates : List Int) (floorDate now : Int) :
    Option (Int × Int) :=
  let lastDate := backfill_last_date hasDateCol dates floorDate
  if now - 7 ≤ lastDate then none
  else some (lastDate + 1, now)

/-- The fetch start of `update_template_incremental` (lines 104-115):
`last_date + timedelta(days=1)` where the last date is the column maximum;
`none` models the NaT produced by the maximum of an empty column, which
propagates through the addition. The fetch call is issued unconditionally:
there is no staleness check on this path. -/
def incremental_fetch_start (dates : List Int) : Option Int :=
  (maxDate dates).map (fun m => m + 1)

/-- Outcome of one incremental run: the reported `rows_added` and the row set
written back to storage, `none` when no write is issued. -/
structure IncResult where
  rowsAdded : Nat
  write : Option (List DataRow)
deriving DecidableEq

/-- The merge-and-write tail of `update_template_incremental` (lines
117-139): an empty fetch result reports zero rows added and writes nothing;
otherwise the appended, deduplicated, sorted frame is written and
`rows_added = len(new_data)`. -/
def update_template_incremental_merge (df newData : List DataRow) : IncResult :=
  if newData.isEmpty then ⟨0, none⟩
  else ⟨newData.length, some (merge_rows df newData)⟩

/-- The `last_date` access of `update_template_incremental` (lines 104-109):
a frame without a `Date` column raises (`KeyError`, re-raised by the handler);
a frame with the column yields the column maximum, which is NaT (`none`) when
the frame has no rows — no error is raised in that case and no floor fallback
exists on this path. -/
def update_template_incremental_last (hasDateCol : Bool) (dates : List Int) :
    Except String (Option Int) :=
  if hasDateCol then .ok (maxDate dates) else .error "KeyError: Date"

/-- One per-sheet audit result, as compared by the best-result selection of
`audit_templates_v2`: the valid-row count and the last (most recent) date. -/
structure SheetAudit where
  total_rows : Nat
  end_date : Int
deriving DecidableEq

/-- The best-result update of `audit_templates_v2` (src/app.py lines
608-610): `if best_result is None or total_rows > best_result['total_rows']`.
Only a strictly larger row count replaces the incumbent. -/
def best_result_step (best : Option SheetAudit) (r : SheetAudit) : Option SheetAudit :=
  match best with
  | none => some r
  | some b => if r.total_rows > b.total_rows then some r else some b

/-- The per-template sheet scan of `audit_templates_v2`: fold the best-result
update over the parsed sheet audits in sheet order. -/
def best_result (results : List SheetAudit) : Option SheetAudit :=
  results.foldl best_result_step none

/-- One per-template entry of the batch summary's `details` list. -/
inductive TemplateDetail where
  | ok (name : String) (rowsAdded : Nat)
  | failed (name : String) (err : String)
deriving DecidableEq

/-- The batch summary built by `update_all_macro_templates`:
`{total_templates, updated, failed, details}`. -/
structure RunSummary where
  total_templates : Nat
  updated : Nat
  failedCount : Nat
  details : List TemplateDetail
deriving DecidableEq

/-- The per-template loop body of `update_all_macro_templates`
(src/services/data_update_strategy.py lines 192-223): a successful template
appends a success detail and bumps `updated` when rows were added; a raising
template is caught, counted as failed, and recorded, after which the loop
moves on. -/
def update_all_step (acc : RunSummary) (t : String × Except String Nat) : RunSummary :=
  match t.2 with
  | .ok n =>
    ⟨acc.total_templates, (if 0 < n then acc.updated + 1 else acc.updated),
      acc.failedCount, acc.details ++ [.ok t.1 n]⟩
  | .error e =>
    ⟨acc.total_templates, acc.updated, acc.failedCount + 1,
      acc.details ++ [.failed t.1 e]⟩

/-- The batch orchestrator `update_all_macro_templates` (lines 149-227) over
an already-resolved template mapping: each template's outcome (its
`rows_added`, or the exception its processing raised) is folded into the
summary; the function is total — it always returns a `RunSummary`. -/
def update_all_macro_templates (ts : List (String × Except String Nat)) : RunSummary :=
  ts.foldl update_all_step ⟨ts.length, 0, 0, []⟩

/-- The per-template detail list the batch loop accumulates, in order. -/
def details_of (ts : List (String × Except String Nat)) : List TemplateDetail :=
  ts.map (fun t =>
    match t.2 with
    | .ok n => .ok t.1 n
    | .error e => .failed t.1 e)

/-- Outcome of one `cleanup_old_data` call: the reported `rows_removed` and
the row set written back, `none` when no write is issued. -/
structure CleanupResult where
  rows_removed : Nat
  write : Option (List DataRow)
deriving DecidableEq

/-- `cleanup_old_data` (src/services/data_update_strategy.py lines 233-268):
with `keep_all_for_monthly` (the default) it returns immediately with zero
rows removed and no write; otherwise it keeps rows dated on or after
`now - retention_years*365` days and writes back only when something was
removed. -/
def cleanup_old_data (df : List DataRow) (now retentionYears : Int)
    (keepAllForMonthly : Bool) : CleanupResult :=
  if keepAllForMonthly then ⟨0, none⟩
  else
    let cutoff := now - retentionYears * 365
    let cleaned := df.filter (fun r => cutoff ≤ r.1)
    let removed := df.length - cleaned.length
    ⟨removed, if 0 < removed then some cleaned else none⟩

/-- Rows actually written by a reconciliation outcome: none on failure. -/
def rowsOf : Except String (List (Nat × OutRow)) → List (Nat × OutRow)
  | .ok rows => rows
  | .error _ => []

/-! ### Helper lemmas -/

instance : IsTotal DataRow (fun a b => a.1 ≤ b.1) :=
  ⟨fun a b => Int.le_total a.1 b.1⟩

instance : IsTrans DataRow (fun a b => a.1 ≤ b.1) :=
  ⟨fun _ _ _ h1 h2 => le_trans h1 h2⟩

theorem mem_dedupKeepLast {r : DataRow} :
    ∀ {l : List DataRow}, r ∈ dedupKeepLast l → r ∈ l := by
  intro l
  induction l with
  | nil => intro h; exact absurd h (by simp [dedupKeepLast])
  | cons x xs ih =>
    intro h
    by_cases hx : xs.any (fun q => q.1 == x.1)
    · simp only [dedupKeepLast, hx, if_pos] at h
      exact List.mem_cons_of_mem x (ih h)
    · simp only [dedupKeepLast, hx, if_neg, Bool.false_eq_true, not_false_iff] at h
      rcases List.mem_cons.mp h with h1 | h2
      · exact h1 ▸ List.mem_cons_self x xs
      · exact List.mem_cons_of_mem x (ih h2)

theorem nodup_dedupKeepLast_keys :
    ∀ (l : List DataRow), ((dedupKeepLast l).map Prod.fst).Nodup := by
  intro l
  induction l with
  | nil => simp [dedupKeepLast]
  | cons x xs ih =>
    by_cases hx : xs.any (fun q => q.1 == x.1)
    · simpa only [dedupKeepLast, hx, if_pos] using ih
    · simp only [dedupKeepLast, hx, if_neg, Bool.false_eq_true, not_false_iff,
        List.map_cons, List.nodup_cons]
      refine ⟨?_, ih⟩
      intro hmem
      rcases List.mem_map.mp hmem with ⟨q, hq, hq1⟩
      have hqxs : q ∈ xs := mem_dedupKeepLast hq
      have : xs.any (fun q => q.1 == x.1) = true :=
        List.any_eq_true.mpr ⟨q, hqxs, by simpa using hq1⟩
      exact hx this

theorem medianTwice_eq_none_iff (xs : List Int) : medianTwice xs = none ↔ xs = [] := by
  unfold medianTwice
  have hlen : (List.insertionSort (fun a b => a ≤ b) xs).length = xs.length :=
    List.length_insertionSort _ xs
  constructor
  · intro h
    by_cases h0 : (List.insertionSort (fun a b => a ≤ b) xs).length = 0
    · exact List.length_eq_zero.mp (hlen ▸ h0)
    · simp only [h0, if_neg, not_false_iff] at h
      split at h <;> simp_all
  · intro h
    subst h
    simp

theorem medianTwice_isSome_of_ne_nil {xs : List Int} (h : xs ≠ []) :
    ∃ t, medianTwice xs = some t := by
  cases hm : medianTwice xs with
  | none => exact absurd ((medianTwice_eq_none_iff xs).mp hm) h
  | some t => exact ⟨t, rfl⟩

/-! ### Claim C3: APPEND merge yields strictly monotone, duplicate-free dates -/

/-- C3: for every existing row set and every fetched row set, with arbitrary
date overlap, the APPEND merge (concatenate new after existing, deduplicate by
date keeping the last write, sort by date) yields a row set whose dates are
strictly monotonically increasing and duplicate-free. -/
theorem merge_rows_strict_mono (df newData : List DataRow) :
    ((merge_rows df newData).map Prod.fst).Pairwise (· < ·) ∧
    ((merge_rows df newData).map Prod.fst).Nodup := by
  have hperm :
      List.Perm (sort_values_by_date (dedupKeepLast (df ++ newData)))
        (dedupKeepLast (df ++ newData)) :=
    List.perm_insertionSort _ _
  have hsorted :
      List.Sorted (fun a b : DataRow => a.1 ≤ b.1)
        (sort_values_by_date (dedupKeepLast (df ++ newData))) :=
    List.sorted_insertionSort _ _
  have hnodup : ((merge_rows df newData).map Prod.fst).Nodup :=
    ((hperm.map Prod.fst).symm).nodup (nodup_dedupKeepLast_keys _)
  have hle : ((merge_rows df newData).map Prod.fst).Pairwise (· ≤ ·) :=
    List.pairwise_map.mpr hsorted
  have hlt : ((merge_rows df newData).map Prod.fst).Pairwise (· < ·) :=
    (hle.and hnodup).imp (fun h => lt_of_le_of_ne h.1 h.2)
  exact ⟨hlt, hnodup⟩

/-! ### Claim C4: cadence classification -/

/-- C4 counterexample: a five-row monthly sheet stored newest-first (row-order
dates 120, 90, 60, 30, 0). The code differences the dates in row order, so the
median delta is −30 and the inferred cadence is "daily"; the claim's
ascending-sorted deltas have median 30, giving "monthly". The cadence is
therefore not a function of the sorted-delta median as claimed. -/
theorem audit_frequency_row_order_counterexample :
    audit_frequency [120, 90, 60, 30, 0] = "daily" ∧
    spec_frequency [120, 90, 60, 30, 0] = "monthly" := by
  constructor <;> decide

/-- C4 amended: the inferred cadence is the stated threshold function of the
median of the successive date deltas taken in the sheet's ROW order (not
ascending-sorted); when the rows happen to be in ascending date order the two
agree, and the cadence is "unknown" exactly when there are zero deltas. -/
theorem audit_frequency_spec (dates : List Int)
    (hs : dates.Pairwise (· ≤ ·)) :
    audit_frequency dates = spec_frequency dates ∧
    (date_diffs dates = [] ↔ audit_frequency dates = "unknown") := by
  constructor
  · unfold spec_frequency audit_frequency
    rw [List.Sorted.insertionSort_eq hs]
  · constructor
    · intro h
      unfold audit_frequency
      rw [h]
      rfl
    · intro h
      by_contra hne
      obtain ⟨t, ht⟩ := medianTwice_isSome_of_ne_nil hne
      unfold audit_frequency at h
      rw [ht] at h
      simp only at h
      by_cases h1 : t ≤ 3
      · rw [if_pos h1] at h
        exact absurd h (by decide)
      · rw [if_neg h1] at h
        by_cases h2 : t ≤ 70
        · rw [if_pos h2] at h
          exact absurd h (by decide)
        · rw [if_neg h2] at h
          by_cases h3 : t ≤ 200
          · rw [if_pos h3] at h
            exact absurd h (by decide)
          · rw [if_neg h3] at h
            exact absurd h (by decide)

/-- C4 witness: the amended theorem applied to the ascending monthly sheet
0, 30, 60, 90, 120. -/
theorem audit_frequency_spec_witness :
    audit_frequency [0, 30, 60, 90, 120] = spec_frequency [0, 30, 60, 90, 120] ∧
    (date_diffs [0, 30, 60, 90, 120] = [] ↔
      audit_frequency [0, 30, 60, 90, 120] = "unknown") :=
  audit_frequency_spec [0, 30, 60, 90, 120] (by decide)

/-! ### Helper lemmas for the completeness policy (C1) -/

theorem main_dates_go (fetched : SeriesData) :
    ∀ (rest : List String) (cur : List Int),
      (∀ s ∈ rest, (fetched.lookup s).isSome) →
      ∃ l, rest.foldl (main_dates_step fetched) (some cur) = some l ∧
        ∀ d, d ∈ l ↔ (d ∈ cur ∧ ∀ s ∈ rest, d ∈ seriesDates fetched s) := by
  intro rest
  induction rest with
  | nil =>
    intro cur _
    exact ⟨cur, rfl, by simp⟩
  | cons s rest ih =>
    intro cur hp
    obtain ⟨obs, hobs⟩ :=
      Option.isSome_iff_exists.mp (hp s (List.mem_cons_self s rest))
    have hstep : main_dates_step fetched (some cur) s =
        some (cur.filter (fun d => ((nonNullObs obs).map Prod.fst).contains d)) := by
      unfold main_dates_step
      rw [hobs]
    obtain ⟨l, hl, hmem⟩ :=
      ih (cur.filter (fun d => ((nonNullObs obs).map Prod.fst).contains d))
        (fun x hx => hp x (List.mem_cons_of_mem s hx))
    refine ⟨l, ?_, ?_⟩
    · rw [List.foldl_cons, hstep]
      exact hl
    · intro d
      rw [hmem d]
      constructor
      · rintro ⟨hdf, hrest⟩
        obtain ⟨hdcur, hdin⟩ := List.mem_filter.mp hdf
        refine ⟨hdcur, ?_⟩
        intro x hx
        rcases List.mem_cons.mp hx with rfl | hx2
        · simp only [seriesDates, hobs, Option.getD_some]
          simpa using hdin
        · exact hrest x hx2
      · rintro ⟨hdcur, hall⟩
        have hds : d ∈ seriesDates fetched s := hall s (List.mem_cons_self s rest)
        simp only [seriesDates, hobs, Option.getD_some] at hds
        exact ⟨List.mem_filter.mpr ⟨hdcur, by simpa using hds⟩,
          fun x hx => hall x (List.mem_cons_of_mem s hx)⟩

theorem main_dates_some (fetched : SeriesData) (main : List String)
    (hmain : main ≠ []) (hp : ∀ s ∈ main, (fetched.lookup s).isSome) :
    ∃ l, main_dates fetched main = some l ∧
      ∀ d, d ∈ l ↔ ∀ s ∈ main, d ∈ seriesDates fetched s := by
  cases main with
  | nil => exact absurd rfl hmain
  | cons s rest =>
    obtain ⟨obs, hobs⟩ :=
      Option.isSome_iff_exists.mp (hp s (List.mem_cons_self s rest))
    have hstep : main_dates_step fetched none s =
        some ((nonNullObs obs).map Prod.fst) := by
      unfold main_dates_step
      rw [hobs]
    obtain ⟨l, hl, hmem⟩ :=
      main_dates_go fetched rest ((nonNullObs obs).map Prod.fst)
        (fun x hx => hp x (List.mem_cons_of_mem s hx))
    refine ⟨l, ?_, ?_⟩
    · unfold main_dates
      rw [List.foldl_cons, hstep]
      exact hl
    · intro d
      rw [hmem d]
      constructor
      · rintro ⟨h1, h2⟩ x hx
        rcases List.mem_cons.mp hx with rfl | hx2
        · simp only [seriesDates, hobs, Option.getD_some]
          exact h1
        · exact h2 x hx2
      · intro hall
        have hds : d ∈ seriesDates fetched s := hall s (List.mem_cons_self s rest)
        simp only [seriesDates, hobs, Option.getD_some] at hds
        exact ⟨hds, fun x hx => hall x (List.mem_cons_of_mem s hx)⟩

theorem write_rows_date_mem (fetched : SeriesData) (cols : List (String × Nat)) :
    ∀ (start : Nat) (ds : List Int) (d : Int),
      (∃ r ∈ write_rows fetched cols start ds, r.2.date = d) ↔ d ∈ ds := by
  intro start ds
  induction ds generalizing start with
  | nil => simp [write_rows]
  | cons x xs ih =>
    intro d
    simp only [write_rows, List.mem_cons]
    constructor
    · rintro ⟨r, hr | hr, hd⟩
      · subst hr
        exact Or.inl hd.symm
      · exact Or.inr ((ih (start + 1) d).mp ⟨r, hr, hd⟩)
    · rintro (rfl | hx)
      · exact ⟨(start, buildRow fetched cols d), Or.inl rfl, rfl⟩
      · obtain ⟨r, hr, hd⟩ := (ih (start + 1) d).mpr hx
        exact ⟨r, Or.inr hr, hd⟩

theorem write_rows_snd (fetched : SeriesData) (cols : List (String × Nat)) :
    ∀ (start : Nat) (ds : List Int) (r : Nat × OutRow),
      r ∈ write_rows fetched cols start ds → ∃ d ∈ ds, r.2 = buildRow fetched cols d := by
  intro start ds
  induction ds generalizing start with
  | nil => simp [write_rows]
  | cons x xs ih =>
    intro r hr
    rcases List.mem_cons.mp hr with rfl | hr2
    · exact ⟨x, List.mem_cons_self x xs, rfl⟩
    · obtain ⟨d, hd, hrd⟩ := ih (start + 1) r hr2
      exact ⟨d, List.mem_cons_of_mem x hd, hrd⟩

theorem mem_buildRow_cells {fetched : SeriesData} {cols : List (String × Nat)}
    {d : Int} {col : Nat} {v : Int} :
    (col, v) ∈ (buildRow fetched cols d).cells ↔
      ∃ s, (s, col) ∈ cols ∧ cell_lookup fetched s d = some v := by
  unfold buildRow
  simp only [List.mem_filterMap]
  constructor
  · rintro ⟨sc, hsc, hmap⟩
    rcases Option.map_eq_some'.mp hmap with ⟨v0, hv0, heq⟩
    injection heq with h1 h2
    refine ⟨sc.1, ?_, ?_⟩
    · rw [← h1]
      exact hsc
    · rw [← h2]
      exact hv0
  · rintro ⟨s, hs, hcl⟩
    exact ⟨(s, col), hs, by rw [hcl]; rfl⟩

theorem cell_lookup_isSome_iff {fetched : SeriesData} {s : String} {d : Int} :
    (∃ v, cell_lookup fetched s d = some v) ↔
      ∃ v, (d, v) ∈ nonNullObs ((fetched.lookup s).getD []) := by
  unfold cell_lookup
  cases hl : fetched.lookup s with
  | none => simp [nonNullObs]
  | some obs =>
    simp only [Option.getD_some]
    constructor
    · rintro ⟨v, hv⟩
      rcases Option.map_eq_some'.mp hv with ⟨p, hp, hpv⟩
      have hpd : p.1 = d := by simpa using List.find?_some hp
      refine ⟨v, ?_⟩
      have hpmem : p ∈ nonNullObs obs := List.mem_of_find?_eq_some hp
      have : p = (d, v) := by
        rw [← hpd, ← hpv]
      rw [← this]
      exact hpmem
    · rintro ⟨v, hv⟩
      have hsome : ((nonNullObs obs).find? (fun p => p.1 == d)).isSome :=
        List.find?_isSome.mpr ⟨(d, v), hv, by simp⟩
      obtain ⟨p, hp⟩ := Option.isSome_iff_exists.mp hsome
      exact ⟨p.2, by rw [hp]; rfl⟩

theorem snd_nodup_inj {l : List (String × Nat)} (h : (l.map Prod.snd).Nodup)
    {a b : String} {c : Nat} (ha : (a, c) ∈ l) (hb : (b, c) ∈ l) : a = b := by
  induction l with
  | nil => cases ha
  | cons x xs ih =>
    simp only [List.map_cons, List.nodup_cons] at h
    rcases List.mem_cons.mp ha with hax | hax <;>
      rcases List.mem_cons.mp hb with hbx | hbx
    · rw [← hax] at hbx
      injection hbx with h1 _
      exact h1.symm
    · exfalso
      apply h.1
      have : x.2 = c := by rw [← hax]
      rw [this]
      exact List.mem_map.mpr ⟨(b, c), hbx, rfl⟩
    · exfalso
      apply h.1
      have : x.2 = c := by rw [← hbx]
      rw [this]
      exact List.mem_map.mpr ⟨(a, c), hax, rfl⟩
    · exact ih h.2 hax hbx

/-! ### Claim C1: completeness policy of the final backfill -/

/-- C1: for every fetched-per-series collection containing each declared main
series and a non-empty main subset (with the series-to-column mapping using
distinct columns, as in the source), the set of dates written by
`backfill_yields_final` equals the intersection over the main series of the
dates carrying a non-null value; a series contributes a cell value at an
eligible date exactly when it has a non-null observation there (the first
match), and an eligible date whose supplementary value is missing keeps its
row with that cell left empty. -/
theorem backfill_final_completeness
    (fetched : SeriesData) (main : List String) (seriesToCols : List (String × Nat))
    (hmain : main ≠ [])
    (hpresent : ∀ s ∈ main, (fetched.lookup s).isSome)
    (hcols : (seriesToCols.map Prod.snd).Nodup) :
    (∀ d, (∃ r ∈ rowsOf (backfill_yields_final_rows fetched main seriesToCols),
        r.2.date = d) ↔ (∀ s ∈ main, d ∈ seriesDates fetched s)) ∧
    (∀ r ∈ rowsOf (backfill_yields_final_rows fetched main seriesToCols),
      ∀ sc ∈ seriesToCols,
        (∀ v, ((sc.2, v) ∈ r.2.cells ↔ cell_lookup fetched sc.1 r.2.date = some v)) ∧
        ((¬∃ v, (r.2.date, v) ∈ nonNullObs ((fetched.lookup sc.1).getD [])) →
          ∀ v, (sc.2, v) ∉ r.2.cells)) := by
  obtain ⟨l, hl, hmem⟩ := main_dates_some fetched main hmain hpresent
  have hcelliff : ∀ (d : Int), ∀ sc ∈ seriesToCols,
      ∀ v, ((sc.2, v) ∈ (buildRow fetched seriesToCols d).cells ↔
        cell_lookup fetched sc.1 d = some v) := by
    intro d sc hsc v
    constructor
    · intro hv
      obtain ⟨s, hs, hcl⟩ := mem_buildRow_cells.mp hv
      have heq : s = sc.1 := by
        have hsc2 : (sc.1, sc.2) ∈ seriesToCols := by
          simpa using hsc
        exact snd_nodup_inj hcols hs hsc2
      rw [← heq]
      exact hcl
    · intro hcl
      exact mem_buildRow_cells.mpr ⟨sc.1, by simpa using hsc, hcl⟩
  by_cases hempty : l.dedup.isEmpty
  · have hnil : l = [] := by
      have := List.isEmpty_iff.mp hempty
      exact (List.dedup_eq_nil _).mp this
    have hrows : rowsOf (backfill_yields_final_rows fetched main seriesToCols) = [] := by
      simp only [backfill_yields_final_rows, hl]
      rw [if_pos hempty]
      rfl
    rw [hrows]
    constructor
    · intro d
      simp only [List.not_mem_nil, false_and, exists_false, false_iff]
      intro hall
      have : d ∈ l := (hmem d).mpr hall
      rw [hnil] at this
      cases this
    · intro r hr
      cases hr
  · have hrows : rowsOf (backfill_yields_final_rows fetched main seriesToCols) =
        write_rows fetched seriesToCols 4 (sortDescInt l.dedup) := by
      simp only [backfill_yields_final_rows, hl]
      rw [if_neg hempty]
      rfl
    rw [hrows]
    constructor
    · intro d
      rw [write_rows_date_mem]
      have hsortmem : d ∈ sortDescInt l.dedup ↔ d ∈ l.dedup :=
        (List.perm_insertionSort _ l.dedup).mem_iff
      rw [hsortmem, List.mem_dedup]
      exact hmem d
    · intro r hr sc hsc
      obtain ⟨d, _, hrd⟩ := write_rows_snd fetched seriesToCols 4 _ r hr
      have hdate : r.2.date = d := by
        rw [hrd]
        rfl
      constructor
      · intro v
        rw [hrd]
        exact hcelliff d sc hsc v
      · intro hmiss v hv
        rw [hdate] at hmiss
        apply hmiss
        apply cell_lookup_isSome_iff.mp
        refine ⟨v, (hcelliff d sc hsc v).mp ?_⟩
        rw [← hrd]
        exact hv

/-- C1 witness: the spec's completeness example — main series A carrying
dates 1, 2, 3 and B carrying 2, 3, 4, supplementary C carrying only 3 — has
date 2 among the written dates (the intersection is {2, 3}), and the row for
date 2 has no C-cell while keeping its row. -/
theorem backfill_final_completeness_witness :
    (∃ r ∈ rowsOf (backfill_yields_final_rows
        [("A", [(1, some 10), (2, some 20), (3, some 30)]),
         ("B", [(2, some 21), (3, some 31), (4, some 41)]),
         ("C", [(3, some 32)])]
        ["A", "B"]
        [("A", 2), ("B", 3), ("C", 4)]),
      r.2.date = 2) :=
  ((backfill_final_completeness
      [("A", [(1, some 10), (2, some 20), (3, some 30)]),
       ("B", [(2, some 21), (3, some 31), (4, some 41)]),
       ("C", [(3, some 32)])]
      ["A", "B"]
      [("A", 2), ("B", 3), ("C", 4)]
      (by decide) (by decide) (by decide)).1 2).mpr (by decide)

/-! ### Helper lemmas for the overwrite writer (C2) -/

theorem write_rows_length (fetched : SeriesData) (cols : List (String × Nat)) :
    ∀ (start : Nat) (ds : List Int),
      (write_rows fetched cols start ds).length = ds.length := by
  intro start ds
  induction ds generalizing start with
  | nil => rfl
  | cons x xs ih => simp [write_rows, ih]

theorem write_rows_rownum (fetched : SeriesData) (cols : List (String × Nat)) :
    ∀ (start : Nat) (ds : List Int) (r : Nat × OutRow),
      r ∈ write_rows fetched cols start ds →
        start ≤ r.1 ∧ r.1 < start + ds.length := by
  intro start ds
  induction ds generalizing start with
  | nil => simp [write_rows]
  | cons x xs ih =>
    intro r hr
    rcases List.mem_cons.mp hr with rfl | hr2
    · exact ⟨le_refl start, by simp⟩
    · obtain ⟨h1, h2⟩ := ih (start + 1) r hr2
      constructor
      · omega
      · simp only [List.length_cons]
        omega

/-! ### Claim C2: no OverwriteRangeAmbiguous guard exists -/

theorem overwrite_cell_writes_row_bound (fetched : SeriesData)
    (cols : List (String × Nat)) (ds : List Int) :
    ∀ w ∈ overwrite_cell_writes fetched cols ds, 4 ≤ w.1 ∧ w.1 < 4 + ds.length := by
  intro w hw
  unfold overwrite_cell_writes at hw
  obtain ⟨r, hr, hwc⟩ := List.mem_flatMap.mp hw
  have hb := write_rows_rownum fetched cols 4 ds r hr
  rcases List.mem_cons.mp hwc with rfl | hwc2
  · exact hb
  · obtain ⟨c, _, hc⟩ := List.mem_map.mp hwc2
    rw [← hc]
    exact hb

/-- C2 counterexample: the `Data` sheet's prior region holds 5 stale rows
(rows 4-8, date column 1 and value column 2) and only 3 dates are fetched:
the previously observed table length exceeds the number of rows being
overwritten, and no truncation authorization exists anywhere in the source —
yet the operation succeeds, reporting 3 rows written at rows 4-6, and the
saved sheet silently retains the stale rows 7-8, instead of failing with
`OverwriteRangeAmbiguous` (no such failure exists in the code). -/
theorem backfill_correct_no_guard_counterexample :
    backfill_yields_correct_result true
        [("A", [(10, some 1), (20, some 2), (30, some 3)])] [("A", 2)] =
      Except.ok
        ([(4, ⟨30, [(2, 3)]⟩), (5, ⟨20, [(2, 2)]⟩), (6, ⟨10, [(2, 1)]⟩)], 3) ∧
    overwrite_sheet_after
        (overwrite_cell_writes [("A", [(10, some 1), (20, some 2), (30, some 3)])]
          [("A", 2)]
          (sortDescInt (union_dates
            [("A", [(10, some 1), (20, some 2), (30, some 3)])])))
        [(4, 1, 100), (4, 2, 9), (5, 1, 101), (5, 2, 9), (6, 1, 102), (6, 2, 9),
         (7, 1, 103), (7, 2, 9), (8, 1, 104), (8, 2, 9)] =
      [(4, 1, 30), (4, 2, 3), (5, 1, 20), (5, 2, 2), (6, 1, 10), (6, 2, 1),
       (7, 1, 103), (7, 2, 9), (8, 1, 104), (8, 2, 9)] := by
  constructor
  · rfl
  · rfl

/-- C2 amended: the source's OVERWRITE-mode write (`backfill_yields_correct`)
never fails on range grounds: given the `Data` sheet it succeeds for every
prior sheet content, writing exactly the fetched-date count of rows at the
fixed rows 4..4+n-1; every prior cell on a row at or beyond 4+n — stale
history past the overwritten range — survives in the saved sheet untouched,
retained silently rather than truncated or flagged (no
`OverwriteRangeAmbiguous` exists); the only failure is the missing `Data`
sheet. -/
theorem backfill_correct_always_writes (fetched : SeriesData)
    (cols : List (String × Nat)) (prior : List (Nat × Nat × Int)) :
    (∃ rows, backfill_yields_correct_result true fetched cols =
        Except.ok (rows, rows.length) ∧
      ∀ r ∈ rows, 4 ≤ r.1 ∧ r.1 < 4 + rows.length) ∧
    (∀ c ∈ prior, 4 + (sortDescInt (union_dates fetched)).length ≤ c.1 →
      c ∈ overwrite_sheet_after
        (overwrite_cell_writes fetched cols (sortDescInt (union_dates fetched)))
        prior) ∧
    backfill_yields_correct_result false fetched cols =
      Except.error "Data sheet not found" := by
  refine ⟨?_, ?_, rfl⟩
  · refine ⟨write_rows fetched cols 4 (sortDescInt (union_dates fetched)), ?_, ?_⟩
    · have h1 : backfill_yields_correct_result true fetched cols =
          Except.ok (write_rows fetched cols 4 (sortDescInt (union_dates fetched)),
            (sortDescInt (union_dates fetched)).length) := rfl
      rw [h1, write_rows_length]
    · intro r hr
      have hb := write_rows_rownum fetched cols 4 _ r hr
      rw [write_rows_length]
      exact hb
  · intro c hc hcrow
    unfold overwrite_sheet_after
    apply List.mem_append_right
    apply List.mem_filter.mpr
    refine ⟨hc, ?_⟩
    have hnone :
        (overwrite_cell_writes fetched cols
            (sortDescInt (union_dates fetched))).any
          (fun w => w.1 == c.1 && w.2.1 == c.2.1) = false := by
      apply List.any_eq_false.mpr
      intro w hw
      have hwb := overwrite_cell_writes_row_bound fetched cols _ w hw
      have hne : w.1 ≠ c.1 := by omega
      simp [hne]
    show (!((overwrite_cell_writes fetched cols
        (sortDescInt (union_dates fetched))).any
      (fun w => w.1 == c.1 && w.2.1 == c.2.1))) = true
    rw [hnone]
    rfl

/-- C2 amended witness: in the counterexample sheet, the stale cell at row 7
column 1 — the first row beyond the 3 overwritten rows — survives the save. -/
theorem backfill_correct_always_writes_witness :
    ((7 : Nat), (1 : Nat), (103 : Int)) ∈
      overwrite_sheet_after
        (overwrite_cell_writes [("A", [(10, some 1), (20, some 2), (30, some 3)])]
          [("A", 2)]
          (sortDescInt (union_dates
            [("A", [(10, some 1), (20, some 2), (30, some 3)])])))
        [(4, 1, 100), (4, 2, 9), (5, 1, 101), (5, 2, 9), (6, 1, 102), (6, 2, 9),
         (7, 1, 103), (7, 2, 9), (8, 1, 104), (8, 2, 9)] :=
  (backfill_correct_always_writes
      [("A", [(10, some 1), (20, some 2), (30, some 3)])] [("A", 2)]
      [(4, 1, 100), (4, 2, 9), (5, 1, 101), (5, 2, 9), (6, 1, 102), (6, 2, 9),
       (7, 1, 103), (7, 2, 9), (8, 1, 104), (8, 2, 9)]).2.1
    (7, 1, 103) (by decide) (by decide)

/-! ### Claim C5: backfill start date -/

/-- C5 counterexample: a template whose audited cadence is "monthly" (nominal
period 30 days) and whose last date is 1000. The claim requires the fetch to
start at 1000 + 30 = 1030; the code starts it at 1000 + 1 = 1001 —
`last_date + timedelta(days=1)` regardless of cadence. -/
theorem backfill_start_one_day_counterexample :
    backfill_fetch_range true [880, 910, 940, 970, 1000] 0 1100 =
      some (1001, 1100) ∧
    audit_frequency [880, 910, 940, 970, 1000] = "monthly" ∧
    (1001 : Int) ≠ 1000 + 30 := by
  refine ⟨by decide, by decide, by decide⟩

/-- C5 amended: with prior data and a last date more than 7 days stale, the
backfill fetches from last_date + 1 DAY (not one cadence period) through now;
with no prior data it uses the configured floor as the last date and fetches
from floor + 1 day; when the last date is within 7 days of now it
short-circuits and fetches nothing. -/
theorem backfill_fetch_range_spec (dates : List Int) (floorDate now last : Int) :
    (maxDate dates = some last → last < now - 7 →
      backfill_fetch_range true dates floorDate now = some (last + 1, now)) ∧
    (floorDate < now - 7 →
      backfill_fetch_range false dates floorDate now = some (floorDate + 1, now) ∧
      backfill_fetch_range true [] floorDate now = some (floorDate + 1, now)) ∧
    (maxDate dates = some last → now - 7 ≤ last →
      backfill_fetch_range true dates floorDate now = none) := by
  have hlast : ∀ m, maxDate dates = some m →
      backfill_last_date true dates floorDate = m := by
    intro m hm
    unfold backfill_last_date
    simp [hm]
  refine ⟨?_, ?_, ?_⟩
  · intro hmax hlt
    simp only [backfill_fetch_range]
    rw [hlast last hmax, if_neg (not_le.mpr hlt)]
  · intro hfl
    have h2 : backfill_last_date false dates floorDate = floorDate := rfl
    have h3 : backfill_last_date true [] floorDate = floorDate := rfl
    constructor
    · simp only [backfill_fetch_range]
      rw [h2, if_neg (not_le.mpr hfl)]
    · simp only [backfill_fetch_range]
      rw [h3, if_neg (not_le.mpr hfl)]
  · intro hmax hge
    simp only [backfill_fetch_range]
    rw [hlast last hmax, if_pos hge]

/-- C5 witness: the amended range computation at last date 5, now 100. -/
theorem backfill_fetch_range_spec_witness :
    backfill_fetch_range true [5] 0 100 = some (6, 100) :=
  (backfill_fetch_range_spec [5] 0 100 5).1 (by decide) (by decide)

/-! ### Claim C6: incremental idempotence, but no staleness short-circuit -/

/-- C6 counterexample: a sheet whose last date 97 is only 3 days stale at
now = 100 (staleness ≤ the 7-day threshold). The claim's short-circuit would
return rows_added = 0 before fetching; the code still computes a fetch start
of 98, and when the fetch returns one observation it appends it and writes —
rows_added = 1. -/
theorem incremental_no_shortcircuit_counterexample :
    update_template_incremental_merge [(90, 1), (97, 2)] [(98, 5)] =
      ⟨1, some [(90, 1), (97, 2), (98, 5)]⟩ ∧
    maxDate [90, 97] = some 97 ∧
    (100 : Int) - 97 ≤ 7 ∧
    incremental_fetch_start [90, 97] = some 98 := by
  refine ⟨by decide, by decide, by decide, by decide⟩

/-- C6 amended: when the upstream fetch returns no new observations the
incremental run reports rows_added = 0 and performs no write, so a repeated
run with no new data leaves the stored sheet unchanged (idempotence); the
fetch is always issued from last_date + 1 day — there is no staleness
short-circuit on the incremental path — and a non-empty fetch result is
always merged and written regardless of staleness. -/
theorem update_incremental_spec (df newData : List DataRow) (dates : List Int) :
    (newData = [] → update_template_incremental_merge df newData = ⟨0, none⟩) ∧
    (newData ≠ [] → update_template_incremental_merge df newData =
      ⟨newData.length, some (merge_rows df newData)⟩) ∧
    (∀ m, maxDate dates = some m → incremental_fetch_start dates = some (m + 1)) := by
  refine ⟨?_, ?_, ?_⟩
  · intro h
    subst h
    rfl
  · intro h
    unfold update_template_incremental_merge
    rw [if_neg (fun hc => h (List.isEmpty_iff.mp hc))]
  · intro m hm
    unfold incremental_fetch_start
    rw [hm]
    rfl

/-- C6 witness: an empty fetch result reports zero rows and no write. -/
theorem update_incremental_spec_witness :
    update_template_incremental_merge [(90, 1)] [] = ⟨0, none⟩ :=
  (update_incremental_spec [(90, 1)] [] []).1 rfl

/-! ### Claim C10: incremental entry on missing column / empty sheet -/

/-- C10 counterexample: a snapshot that has the `Date` column but contains no
rows. The claim says the incremental entry point raises; instead the column
maximum is NaT, no error is raised, and the fetch is invoked with a NaT-based
start (`none`). -/
theorem incremental_empty_no_raise_counterexample :
    update_template_incremental_last true [] = Except.ok none ∧
    incremental_fetch_start [] = none := by
  exact ⟨rfl, rfl⟩

/-- C10 amended: a snapshot lacking the `Date` column makes the incremental
entry point raise (`KeyError`) before any fetch or write; a snapshot with the
column but no rows does NOT raise — the last date is NaT and processing
continues — while a non-empty column yields its maximum; the floor-date
fallback for missing/empty data exists only on the backfill path
(`backfill_last_date`). -/
theorem update_incremental_last_spec (dates : List Int) (floorDate : Int) :
    update_template_incremental_last false dates =
      Except.error "KeyError: Date" ∧
    update_template_incremental_last true [] = Except.ok none ∧
    (∀ d ds, update_template_incremental_last true (d :: ds) =
      Except.ok (some (ds.foldl max d))) ∧
    backfill_last_date false dates floorDate = floorDate ∧
    backfill_last_date true [] floorDate = floorDate :=
  ⟨rfl, rfl, fun _ _ => rfl, rfl, rfl⟩

/-! ### Claim C7: best-result selection across sheets -/

theorem best_result_go (l : List SheetAudit) :
    ∀ (b : SheetAudit),
      ∃ r pre post, l.foldl best_result_step (some b) = some r ∧
        b :: l = pre ++ r :: post ∧
        (∀ x ∈ pre, x.total_rows < r.total_rows) ∧
        (∀ x ∈ b :: l, x.total_rows ≤ r.total_rows) := by
  induction l with
  | nil =>
    intro b
    exact ⟨b, [], [], rfl, rfl, by simp, by simp⟩
  | cons a l ih =>
    intro b
    by_cases h : a.total_rows > b.total_rows
    · have hstep : best_result_step (some b) a = some a := by
        show (if a.total_rows > b.total_rows then some a else some b) = some a
        rw [if_pos h]
      obtain ⟨r, pre, post, h1, h2, h3, h4⟩ := ih a
      refine ⟨r, b :: pre, post, ?_, ?_, ?_, ?_⟩
      · rw [List.foldl_cons, hstep]
        exact h1
      · rw [List.cons_append, ← h2]
      · intro x hx
        rcases List.mem_cons.mp hx with rfl | hx2
        · exact lt_of_lt_of_le h (h4 a (List.mem_cons_self a l))
        · exact h3 x hx2
      · intro x hx
        rcases List.mem_cons.mp hx with rfl | hx2
        · exact le_of_lt (lt_of_lt_of_le h (h4 a (List.mem_cons_self a l)))
        · exact h4 x hx2
    · have hab : a.total_rows ≤ b.total_rows := not_lt.mp h
      have hstep : best_result_step (some b) a = some b := by
        show (if a.total_rows > b.total_rows then some a else some b) = some b
        rw [if_neg h]
      obtain ⟨r, pre, post, h1, h2, h3, h4⟩ := ih b
      cases pre with
      | nil =>
        simp only [List.nil_append] at h2
        have hbr : b = r := (List.cons.injEq _ _ _ _).mp h2 |>.1
        have hlp : l = post := (List.cons.injEq _ _ _ _).mp h2 |>.2
        refine ⟨r, [], a :: post, ?_, ?_, by simp, ?_⟩
        · rw [List.foldl_cons, hstep]
          exact h1
        · rw [List.nil_append, ← hbr, ← hlp]
        · intro x hx
          rcases List.mem_cons.mp hx with rfl | hx2
          · exact hbr ▸ le_refl x.total_rows
          · rcases List.mem_cons.mp hx2 with rfl | hx3
            · exact le_trans hab (hbr ▸ le_refl b.total_rows)
            · exact h4 x (List.mem_cons_of_mem b (hlp ▸ hx3))
      | cons p0 pre1 =>
        rw [List.cons_append] at h2
        have hp0 : b = p0 := (List.cons.injEq _ _ _ _).mp h2 |>.1
        have hl : l = pre1 ++ r :: post := (List.cons.injEq _ _ _ _).mp h2 |>.2
        have hbpre : b ∈ p0 :: pre1 := hp0 ▸ List.mem_cons_self p0 pre1
        have hblt : b.total_rows < r.total_rows := h3 b hbpre
        refine ⟨r, b :: a :: pre1, post, ?_, ?_, ?_, ?_⟩
        · rw [List.foldl_cons, hstep]
          exact h1
        · rw [List.cons_append, List.cons_append, ← hl]
        · intro x hx
          rcases List.mem_cons.mp hx with rfl | hx2
          · exact hblt
          · rcases List.mem_cons.mp hx2 with rfl | hx3
            · exact lt_of_le_of_lt hab hblt
            · exact h3 x (List.mem_cons_of_mem p0 hx3)
        · intro x hx
          rcases List.mem_cons.mp hx with rfl | hx2
          · exact h4 x (List.mem_cons_self x l)
          · rcases List.mem_cons.mp hx2 with rfl | hx3
            · exact le_trans hab (le_of_lt hblt)
            · exact h4 x (List.mem_cons_of_mem b hx3)

/-- C7 counterexample: two sheets with equal row counts 10, the second with
the more recent last date 9. The claim's tie-break keeps the sheet with the
most recent last_date; the code's strict `>` comparison keeps the FIRST sheet
(last date 5) and never consults last_date. -/
theorem best_result_tie_counterexample :
    best_result [⟨10, 5⟩, ⟨10, 9⟩] = some ⟨10, 5⟩ ∧ (5 : Int) < 9 := by
  refine ⟨by decide, by decide⟩

/-- C7 amended: among the valid per-sheet audit results the kept result is
the EARLIEST one with the maximal row count — only a strictly larger
row_count replaces the incumbent, so ties keep the earlier-audited sheet and
last_date plays no part in the selection. -/
theorem best_result_first_argmax (l : List SheetAudit) :
    (l = [] → best_result l = none) ∧
    (l ≠ [] → ∃ r pre post, best_result l = some r ∧
      l = pre ++ r :: post ∧
      (∀ x ∈ pre, x.total_rows < r.total_rows) ∧
      (∀ x ∈ l, x.total_rows ≤ r.total_rows)) := by
  constructor
  · intro h
    subst h
    rfl
  · intro h
    cases l with
    | nil => exact absurd rfl h
    | cons a l =>
      obtain ⟨r, pre, post, h1, h2, h3, h4⟩ := best_result_go l a
      refine ⟨r, pre, post, ?_, h2, h3, h4⟩
      unfold best_result
      rw [List.foldl_cons]
      exact h1

/-- C7 witness: the amended selection applied to a two-sheet audit with row
counts 3 and 7. -/
theorem best_result_first_argmax_witness :
    ∃ r pre post,
      best_result [⟨3, 1⟩, ⟨7, 2⟩] = some r ∧
      [(⟨3, 1⟩ : SheetAudit), ⟨7, 2⟩] = pre ++ r :: post ∧
      (∀ x ∈ pre, x.total_rows < r.total_rows) ∧
      (∀ x ∈ [(⟨3, 1⟩ : SheetAudit), ⟨7, 2⟩], x.total_rows ≤ r.total_rows) :=
  (best_result_first_argmax [⟨3, 1⟩, ⟨7, 2⟩]).2 (by decide)

/-! ### Claim C8: batch orchestrator isolates failures -/

theorem update_all_step_total (acc : RunSummary) (t : String × Except String Nat) :
    (update_all_step acc t).total_templates = acc.total_templates := by
  cases ht : t.2 <;> simp [update_all_step, ht]

theorem update_all_go (ts : List (String × Except String Nat)) :
    ∀ (acc : RunSummary),
      (ts.foldl update_all_step acc).total_templates = acc.total_templates ∧
      (ts.foldl update_all_step acc).failedCount = acc.failedCount +
        ts.countP (fun t => match t.2 with
          | .ok _ => false
          | .error _ => true) ∧
      (ts.foldl update_all_step acc).updated = acc.updated +
        ts.countP (fun t => match t.2 with
          | .ok n => decide (0 < n)
          | .error _ => false) ∧
      (ts.foldl update_all_step acc).details = acc.details ++ details_of ts := by
  induction ts with
  | nil =>
    intro acc
    refine ⟨rfl, by simp, by simp, by simp [details_of]⟩
  | cons t ts ih =>
    intro acc
    obtain ⟨i1, i2, i3, i4⟩ := ih (update_all_step acc t)
    rw [List.foldl_cons] at *
    cases ht : t.2 with
    | ok n =>
      have hstep : update_all_step acc t =
          ⟨acc.total_templates, (if 0 < n then acc.updated + 1 else acc.updated),
            acc.failedCount, acc.details ++ [.ok t.1 n]⟩ := by
        unfold update_all_step
        rw [ht]
      refine ⟨?_, ?_, ?_, ?_⟩
      · rw [i1, hstep]
      · rw [i2, hstep]
        simp [List.countP_cons, ht]
      · rw [i3, hstep]
        simp only [List.countP_cons, ht]
        by_cases hn : 0 < n <;> simp [hn] <;> omega
      · rw [i4, hstep]
        simp [details_of, ht]
    | error e =>
      have hstep : update_all_step acc t =
          ⟨acc.total_templates, acc.updated, acc.failedCount + 1,
            acc.details ++ [.failed t.1 e]⟩ := by
        unfold update_all_step
        rw [ht]
      refine ⟨?_, ?_, ?_, ?_⟩
      · rw [i1, hstep]
      · rw [i2, hstep]
        simp only [List.countP_cons, ht]
        simp
        omega
      · rw [i3, hstep]
        simp [List.countP_cons, ht]
      · rw [i4, hstep]
        simp [details_of, ht]

/-- C8: for every template list (each template's processing outcome being its
reported rows_added or the exception it raised), the batch orchestrator
always returns a summary — per-template failures are caught, counted in the
failed total and recorded in the details while processing continues — with
total = number of templates, failed = number of raising templates, updated =
number of templates that added rows, one detail entry per template in order,
and a failed detail entry for every raising template. -/
theorem update_all_macro_templates_summary (ts : List (String × Except String Nat)) :
    (update_all_macro_templates ts).total_templates = ts.length ∧
    (update_all_macro_templates ts).failedCount =
      ts.countP (fun t => match t.2 with
        | .ok _ => false
        | .error _ => true) ∧
    (update_all_macro_templates ts).updated =
      ts.countP (fun t => match t.2 with
        | .ok n => decide (0 < n)
        | .error _ => false) ∧
    (update_all_macro_templates ts).details = details_of ts ∧
    (update_all_macro_templates ts).details.length = ts.length ∧
    (∀ name err, (name, Except.error err) ∈ ts →
      TemplateDetail.failed name err ∈ (update_all_macro_templates ts).details) := by
  obtain ⟨g1, g2, g3, g4⟩ := update_all_go ts ⟨ts.length, 0, 0, []⟩
  have hdet : (update_all_macro_templates ts).details = details_of ts := by
    unfold update_all_macro_templates
    rw [g4]
    rfl
  refine ⟨?_, ?_, ?_, hdet, ?_, ?_⟩
  · unfold update_all_macro_templates
    rw [g1]
  · unfold update_all_macro_templates
    rw [g2]
    simp
  · unfold update_all_macro_templates
    rw [g3]
    simp
  · rw [hdet]
    simp [details_of]
  · intro name err hmem
    rw [hdet]
    unfold details_of
    refine List.mem_map.mpr ⟨(name, Except.error err), hmem, rfl⟩

/-- C8 witness: a two-template batch whose second template raises — the
summary records the failure detail and processing reached both templates. -/
theorem update_all_macro_templates_summary_witness :
    TemplateDetail.failed "B" "boom" ∈
      (update_all_macro_templates
        [("A", Except.ok 3), ("B", Except.error "boom")]).details :=
  (update_all_macro_templates_summary
    [("A", Except.ok 3), ("B", Except.error "boom")]).2.2.2.2.2
    "B" "boom" (List.mem_cons_of_mem _ (List.mem_cons_self _ _))

/-! ### Claim C9: cleanup is a no-op when keeping all history -/

/-- C9: `cleanup_old_data` with keep_all_for_monthly = True (its default)
reports zero rows removed and issues no write — the stored sheet is left
exactly as read — and a write (equivalently a positive removed count) occurs
only when keep_all_for_monthly is False and some stored row is dated before
the retention cutoff `now − retention_years·365` days. -/
theorem cleanup_old_data_frame (df : List DataRow) (now retentionYears : Int)
    (b : Bool) :
    cleanup_old_data df now retentionYears true = ⟨0, none⟩ ∧
    ((cleanup_old_data df now retentionYears b).write ≠ none →
      b = false ∧ ∃ r ∈ df, r.1 < now - retentionYears * 365) ∧
    (0 < (cleanup_old_data df now retentionYears b).rows_removed →
      b = false ∧ ∃ r ∈ df, r.1 < now - retentionYears * 365) := by
  have hremoved : 0 < df.length -
      (df.filter (fun r => now - retentionYears * 365 ≤ r.1)).length →
      ∃ r ∈ df, r.1 < now - retentionYears * 365 := by
    intro hpos
    have hle : (df.filter (fun r => now - retentionYears * 365 ≤ r.1)).length ≤
        df.length := List.length_filter_le _ _
    have hlt : (df.filter (fun r => now - retentionYears * 365 ≤ r.1)).length <
        df.length := by omega
    obtain ⟨r, hr, hnot⟩ := List.length_filter_lt_length_iff_exists.mp hlt
    simp only [decide_eq_true_eq] at hnot
    exact ⟨r, hr, by omega⟩
  refine ⟨rfl, ?_, ?_⟩
  · cases b with
    | true =>
      intro hw
      exact absurd rfl hw
    | false =>
      intro hw
      refine ⟨rfl, ?_⟩
      apply hremoved
      by_contra hnot
      have h0 : ¬(0 < df.length -
          (df.filter (fun r => now - retentionYears * 365 ≤ r.1)).length) := hnot
      apply hw
      show (if 0 < df.length -
          (df.filter (fun r => now - retentionYears * 365 ≤ r.1)).length then
        some (df.filter (fun r => now - retentionYears * 365 ≤ r.1)) else none) = none
      rw [if_neg h0]
  · cases b with
    | true =>
      intro hp
      exact absurd hp (by simp [cleanup_old_data])
    | false =>
      intro hp
      exact ⟨rfl, hremoved hp⟩

/-- C9 witness: a single old row (date 0) with a five-year-old cutoff at
now = 1000, retention one year — the write branch implies keep_all was off
and an out-of-retention row exists. -/
theorem cleanup_old_data_frame_witness :
    false = false ∧ ∃ r ∈ [((0 : Int), (1 : Int))], r.1 < 1000 - 1 * 365 :=
  (cleanup_old_data_frame [(0, 1)] 1000 1 false).2.1 (by decide)
